import Mathlib

/-!
Shallow embedding of the resilient-invocation layer of the content-generation
wizard (services/webhook.ts and the Gemini service file): the error
classifier `isQuotaError`, the retry executor `withRetry`, the model-fallback
router `withModelFallback`, the payload extractor `extractJson`, the
webhook response normalizers inside `callWebhookTool`, and the keyword
strategy seed/fan-out step of `generateKeywordStrategy`.

JavaScript values are modelled explicitly: field lookup returns `Option`
(`none` models `undefined`), `a || b` is modelled by truthiness-based
selection, and a thrown `TypeError` is modelled as `Except.error ()`.
-/

/-! ## Error classifier (`isQuotaError`) -/

/-- The value found in an error's `status` / `code` slot: a number, a string,
or absent (`undefined`). -/
inductive StatusVal where
  | num (n : Int)
  | str (s : String)
  | absent
deriving DecidableEq, Repr

/-- JavaScript truthiness of a `status` / `code` value. -/
def StatusVal.truthy : StatusVal → Bool
  | .num n => n != 0
  | .str s => s != ""
  | .absent => false

/-- An error object with the three observable fields `isQuotaError` reads:
`status`, `code` and `message` (`none` models an absent `message`). -/
structure ErrObj where
  status : StatusVal
  code : StatusVal
  message : Option String
deriving DecidableEq, Repr

/-- The classifier's input: `nullish` models `null` / `undefined`, `obj`
models any object-like error value. -/
inductive ErrInput where
  | nullish
  | obj (e : ErrObj)
deriving DecidableEq, Repr

/-- The fixed `message.includes(...)` substrings of `isQuotaError`,
in source order. -/
def quotaSubstrings : List String :=
  ["429", "quota", "RESOURCE_EXHAUSTED", "Too Many Requests",
   "Rpc failed", "xhr error", "500", "overloaded"]

/-- Is the first list a prefix of the second? -/
def leadsWith : List Char → List Char → Bool
  | [], _ => true
  | _ :: _, [] => false
  | c :: cs, d :: ds => c == d && leadsWith cs ds

/-- `String.prototype.includes`: does `text` contain `sub` as a contiguous
substring? -/
def hasSub (sub : List Char) : List Char → Bool
  | [] => leadsWith sub []
  | c :: r => leadsWith sub (c :: r) || hasSub sub r

/-- `true` iff `m` contains one of the fixed substrings (the `includes`
chain of `isQuotaError`). -/
def msgIndicates (m : String) : Bool :=
  quotaSubstrings.any (fun sub => hasSub sub.toList m.toList)

/-- Model of `isQuotaError` (gemini service).  On `null` / `undefined` the
source reads `error.status` and throws a `TypeError` (the `if (error)` guard
only protects the log line), modelled as `.error ()`.  Otherwise
`status = error.status || error.code` and the source returns the boolean
`||`-chain over status equalities and message substrings. -/
def isQuotaError : ErrInput → Except Unit Bool
  | .nullish => .error ()
  | .obj e =>
    let status := if e.status.truthy then e.status else e.code
    .ok (status == .num 429 ||
         status == .num 503 ||
         status == .num 500 ||
         status == .str "RESOURCE_EXHAUSTED" ||
         status == .str "PERMISSION_DENIED" ||
         (match e.message with
          | some m => m != "" && msgIndicates m
          | none => false))

/-! ## Retry executor (`withRetry`) and model fallback router -/

/-- Model of `withRetry(fn, retries, baseDelay)`.  The task `fn` is indexed
by the attempt number; classification gates the retry just as
`isQuotaError(error)` does in the source.  Returns the final result, the
number of invocations of `fn`, and the list of delays slept (in
milliseconds); each recursive call doubles the delay, exactly as the source
passes `baseDelay * 2`. -/
def withRetryRun {E A : Type} (fn : Nat → Except E A) (classify : E → Bool) :
    Nat → Nat → Nat → Except E A × Nat × List Nat
  | attempt, retries, delay =>
    match fn attempt with
    | .ok a => (.ok a, 1, [])
    | .error e =>
      match retries with
      | 0 => (.error e, 1, [])
      | r + 1 =>
        if classify e then
          let rest := withRetryRun fn classify (attempt + 1) r (delay * 2)
          (rest.1, rest.2.1 + 1, delay :: rest.2.2)
        else (.error e, 1, [])

/-- `PRIMARY_MODEL` of the gemini service. -/
def PRIMARY_MODEL : String := "gemini-3-pro-preview"

/-- `FALLBACK_MODEL` of the gemini service. -/
def FALLBACK_MODEL : String := "gemini-2.5-flash"

/-- Model of `withModelFallback(primaryFn, fallbackFn)`: run the primary task
bound to `PRIMARY_MODEL` through `withRetry` with `(retries, baseDelay) =
(1, 1000)`; on failure, if the failure classifies as a quota error, run the
fallback task bound to `FALLBACK_MODEL` through `withRetry` with
`(3, 2000)`; otherwise rethrow.  Returns the final result together with the
invocation counts of the primary and fallback tasks. -/
def withModelFallback {E A : Type} (primaryFn fallbackFn : String → Nat → Except E A)
    (classify : E → Bool) : Except E A × Nat × Nat :=
  let p := withRetryRun (primaryFn PRIMARY_MODEL) classify 0 1 1000
  match p.1 with
  | .ok a => (.ok a, p.2.1, 0)
  | .error e =>
    if classify e then
      let f := withRetryRun (fallbackFn FALLBACK_MODEL) classify 0 3 2000
      (f.1, p.2.1, f.2.1)
    else (.error e, p.2.1, 0)

/-- `withModelFallback` with the source's default argument
`fallbackFn = primaryFn`: the same task closure is reused. -/
def withModelFallbackDefault {E A : Type} (primaryFn : String → Nat → Except E A)
    (classify : E → Bool) : Except E A × Nat × Nat :=
  withModelFallback primaryFn primaryFn classify

/-! ## Structured payload extractor (`extractJson`)

The source matches the regular expression
triple-backtick, optional literal `json`, `\s*`, lazy group, `\s*`,
triple-backtick, and returns `match[1].trim()`.  The matcher below follows
the JavaScript engine's strategy: leftmost start position first; the
optional `json` literal is tried before being skipped; the first `\s*` is
greedy (longest first); the captured group is lazy (shortest first); the
trailing `\s*` only needs some length that lets the closing backticks
match. -/

/-- The JavaScript `\s` character class (whitespace as used by `\s` in the
fence regular expression and by `String.prototype.trim`). -/
def isJsWs (c : Char) : Bool :=
  c == ' ' || c == '\t' || c == '\n' || c == '\r' ||
  c == '\x0b' || c == '\x0c' ||
  c == '\u00a0' || c == '\u1680' ||
  ('\u2000' ≤ c && c ≤ '\u200a') ||
  c == '\u2028' || c == '\u2029' || c == '\u202f' ||
  c == '\u205f' || c == '\u3000' || c == '\ufeff'

/-- Length of the longest whitespace prefix. -/
def leadingWsCount : List Char → Nat
  | [] => 0
  | c :: r => if isJsWs c then leadingWsCount r + 1 else 0

/-- Does the text start with three backticks? -/
def startsWithTicks : List Char → Bool
  | '`' :: '`' :: '`' :: _ => true
  | _ => false

/-- Can `\s*` followed by three backticks match a prefix of `rem`? -/
def tryTailWs (rem : List Char) : Bool :=
  (List.range (leadingWsCount rem + 1)).any (fun m => startsWithTicks (rem.drop m))

/-- The lazy group `([\s\S]*?)` followed by `\s*` and the closing backticks:
the shortest group that allows the rest of the pattern to match. -/
def lazyGroup : List Char → Option (List Char)
  | [] => none
  | c :: r =>
    if tryTailWs (c :: r) then some []
    else (lazyGroup r).map (fun g => c :: g)

/-- Try the first `\s*` at width `j` (greedy: largest width first),
then the lazy group. -/
def tryWsThen (r1 : List Char) : Nat → Option (List Char)
  | 0 => lazyGroup r1
  | j' + 1 =>
    match lazyGroup (r1.drop (j' + 1)) with
    | some g => some g
    | none => tryWsThen r1 j'

/-- Continue the fence match after the optional tag: `\s*`, the lazy group,
`\s*`, closing backticks. -/
def contMatch (r1 : List Char) : Option (List Char) :=
  tryWsThen r1 (leadingWsCount r1)

/-- Try to match the whole fence pattern at the start of the text, returning
the captured group.  The optional literal `json` is preferred, with
backtracking to the empty alternative. -/
def tryMatchHere : List Char → Option (List Char)
  | '`' :: '`' :: '`' :: rest =>
    match rest with
    | 'j' :: 's' :: 'o' :: 'n' :: r1 =>
      (match contMatch r1 with
       | some g => some g
       | none => contMatch rest)
    | _ => contMatch rest
  | _ => none

/-- First (leftmost) match of the fence pattern: the captured group of
`text.match(...)` in the source. -/
def fenceMatch : List Char → Option (List Char)
  | [] => none
  | c :: r =>
    match tryMatchHere (c :: r) with
    | some g => some g
    | none => fenceMatch r

/-- `String.prototype.trim`. -/
def trimJs (s : List Char) : List Char :=
  ((s.dropWhile isJsWs).reverse.dropWhile isJsWs).reverse

/-- `text.search(/[{\[]/)`: index of the first opening brace or bracket. -/
def searchOpenIdx (s : List Char) : Option Nat :=
  s.findIdx? (fun c => c == '\x7b' || c == '[')

/-- `text.lastIndexOf(c)`. -/
def lastIndexOfChar (s : List Char) (c : Char) : Option Nat :=
  (s.reverse.findIdx? (fun d => d == c)).map (fun k => s.length - 1 - k)

/-- `text.substring(a, b)`: JavaScript swaps the endpoints when `a > b`. -/
def jsSubstring (s : List Char) (a b : Nat) : List Char :=
  (s.take (max a b)).drop (min a b)

/-- The fence-less fallback of `extractJson`: take the first opening brace
or bracket, pick the corresponding closing character, and return
`text.substring(firstOpen, lastIndex + 1)` when `text.lastIndexOf(close)`
succeeds; otherwise `text.trim()`.  (The source also computes
`text.search(/[}\]]$/)` into `lastClose` but never uses it, so that dead
computation is not modelled.) -/
def bracketFallback (text : List Char) : List Char :=
  match searchOpenIdx text with
  | some firstOpen =>
    let closeChar := if text.getD firstOpen ' ' == '\x7b' then '\x7d' else ']'
    match lastIndexOfChar text closeChar with
    | some lastIndex => jsSubstring text firstOpen (lastIndex + 1)
    | none => trimJs text
  | none => trimJs text

/-- Model of `extractJson` (gemini service): the trimmed capture of the
first fence match when one exists, the bracket fallback otherwise. -/
def extractJson (text : List Char) : List Char :=
  match fenceMatch text with
  | some g => trimJs g
  | none => bracketFallback text

/-! ## JSON values and webhook response normalization (`callWebhookTool`) -/

/-- A parsed JSON value (the result of `JSON.parse` on the webhook response
body). -/
inductive JVal where
  | null
  | bool (b : Bool)
  | num (n : Int)
  | str (s : String)
  | arr (elems : List JVal)
  | obj (fields : List (String × JVal))
deriving Repr

/-- JavaScript truthiness of a JSON value (arrays and objects are always
truthy). -/
def JVal.truthy : JVal → Bool
  | .null => false
  | .bool b => b
  | .num n => n != 0
  | .str s => s != ""
  | .arr _ => true
  | .obj _ => true

/-- `Array.isArray`. -/
def JVal.isArr : JVal → Bool
  | .arr _ => true
  | _ => false

/-- `typeof v === 'string'`. -/
def JVal.isStr : JVal → Bool
  | .str _ => true
  | _ => false

/-- Property access `v.k` on a non-null value (and `v?.k` on any value):
`none` models `undefined`.  Only objects carry properties; on `null` this is
only used where the source guards with `?.` or a truthiness check. -/
def JVal.getField : JVal → String → Option JVal
  | .obj fields, k => (fields.find? (fun p => p.1 == k)).map (fun p => p.2)
  | _, _ => none

/-- JavaScript `a || b` where `a` may be `undefined` (`none`). -/
def jsOr (a : Option JVal) (b : JVal) : JVal :=
  match a with
  | some v => if v.truthy then v else b
  | none => b

/-- JavaScript `a || b` where both sides may be `undefined`. -/
def jsOrOpt (a b : Option JVal) : Option JVal :=
  match a with
  | some v => if v.truthy then some v else b
  | none => b

/-- `Array.prototype.map` whose callback may throw: the first thrown
error aborts the whole map (and, in the source, the whole
`callWebhookTool`). -/
def mapThrow {B : Type} (f : JVal → Except Unit B) : List JVal → Except Unit (List B)
  | [] => .ok []
  | x :: xs =>
    match f x with
    | .error e => .error e
    | .ok y =>
      match mapThrow f xs with
      | .error e => .error e
      | .ok ys => .ok (y :: ys)

/-- An output record of the `page_ranked_keywords` branch.  The source
builds it with `||`-defaults, so each field holds whatever JavaScript value
won the `||` chain. -/
structure RankedKeyword where
  keyword : JVal
  competition : JVal
  competition_level : JVal
  cpc : JVal
  search_volume : JVal
  difficulty : JVal
  intent : JVal
deriving Repr

/-- One step of the `page_ranked_keywords` map callback.  Reading a property
of a `null` element throws a `TypeError`; otherwise every field falls back
to its default through `||`. -/
def normalizeRankedItem (kw : JVal) : Except Unit RankedKeyword :=
  match kw with
  | .null => .error ()
  | _ =>
    .ok { keyword := jsOr (kw.getField "Keyword") (jsOr (kw.getField "keyword") (.str "")),
          competition := jsOr (kw.getField "competition_score") (.num 0),
          competition_level := jsOr (kw.getField "competition_level") (.str "UNKNOWN"),
          cpc := jsOr (kw.getField "cpc") (.num 0),
          search_volume := jsOr (kw.getField "search_volume") (.num 0),
          difficulty := jsOr (kw.getField "keyword_difficulty") (.num 0),
          intent := jsOr (kw.getField "intent") (.str "unknown") }

/-- The `page_ranked_keywords` branch of `callWebhookTool`, applied to the
(possibly unwrapped) `data` value: the collection is
`data?.ranked_keywords || (Array.isArray(data) ? data : [])`; a non-array
collection yields `[]`. -/
def rankedFromData (data : JVal) : Except Unit (List RankedKeyword) :=
  let keywords := jsOr (data.getField "ranked_keywords")
    (if data.isArr then data else .arr [])
  match keywords with
  | .arr xs => mapThrow normalizeRankedItem xs
  | _ => .ok []

/-- `filter(Boolean)` over the results of a map whose values may be
`undefined`. -/
def filterBoolean (l : List (Option JVal)) : List JVal :=
  l.filterMap (fun o =>
    match o with
    | some v => if v.truthy then some v else none
    | none => none)

/-- The map callback of the `related_keyword` branch:
`(kw: any) => kw.keyword` (throws on a `null` element). -/
def relatedKwCallback (kw : JVal) : Except Unit (Option JVal) :=
  match kw with
  | .null => .error ()
  | _ => .ok (kw.getField "keyword")

/-- The map callback of the `suggested_keywords` fallback branch:
`(kw: any) => kw.Keyword || kw.keyword || kw` (throws on a `null`
element). -/
def suggestedKwCallback (kw : JVal) : Except Unit JVal :=
  match kw with
  | .null => .error ()
  | _ => .ok (jsOr (kw.getField "Keyword") (jsOr (kw.getField "keyword") kw))

/-- The `suggested_keywords` branch of `callWebhookTool`, applied to `data`:
first the nested `related_keyword` structure (mapping each element's
`keyword` property), then the fallback
`data?.suggested_keywords || (Array.isArray(data) ? data : [])` with the
`kw.Keyword || kw.keyword || kw` chain; both maps `filter(Boolean)` and
throw on `null` elements. -/
def suggestedFromData (data : JVal) : Except Unit (List JVal) :=
  match (if data.truthy then data.getField "related_keyword" else none) with
  | some (JVal.arr xs) =>
    (mapThrow relatedKwCallback xs).map filterBoolean
  | _ =>
    let keywords := jsOr (data.getField "suggested_keywords")
      (if data.isArr then data else .arr [])
    match keywords with
    | .arr xs =>
      (mapThrow suggestedKwCallback xs).map (fun l => l.filter JVal.truthy)
    | _ => .ok []

/-- An output record of the `url_map` branch; `url` is `none` when the
source stores a JavaScript `undefined` in the record. -/
structure InternalLink where
  url : Option JVal
  title : JVal
deriving Repr

/-- JavaScript `split` with a single-character separator (as used with `'/'`
and `' '` in the source): splits at every occurrence, keeping empty
segments. -/
def splitOnChar (sep : Char) : List Char → List (List Char)
  | [] => [[]]
  | c :: r =>
    let rest := splitOnChar sep r
    if c == sep then [] :: rest
    else
      match rest with
      | h :: t => (c :: h) :: t
      | [] => [[c]]

/-- `path.replace(/[-_]/g, ' ')`. -/
def dashesToSpaces (s : List Char) : List Char :=
  s.map (fun c => if c == '-' || c == '_' then ' ' else c)

/-- `s.replace(/\.[^/.]+$/, "")`: strip a trailing dot-extension (a dot
followed by at least one character that is neither a slash nor a dot,
anchored at the end). -/
def stripExt (s : List Char) : List Char :=
  let rev := s.reverse
  let t := rev.takeWhile (fun c => c ≠ '/' && c ≠ '.')
  if t.length > 0 then
    match rev.drop t.length with
    | '.' :: _ => (rev.drop (t.length + 1)).reverse
    | _ => s
  else s

/-- `word.charAt(0).toUpperCase() + word.slice(1)` (ASCII case mapping). -/
def capitalizeWord : List Char → List Char
  | [] => []
  | c :: rest => c.toUpper :: rest

/-- `words.join(' ')`. -/
def joinWithSpace : List (List Char) → List Char
  | [] => []
  | [w] => w
  | w :: ws => w ++ ' ' :: joinWithSpace ws

/-- The generated title of a `url_map` item: last nonempty path segment,
dashes and underscores to spaces, extension stripped, each
space-separated word capitalized. -/
def generatedTitle (u : String) : String :=
  let path := (((splitOnChar '/' u.toList).filter (fun s => !s.isEmpty)).getLast?).getD []
  String.mk (joinWithSpace ((splitOnChar ' ' (stripExt (dashesToSpaces path))).map capitalizeWord))

/-- `typeof o === 'string'` for a field-lookup result (`undefined` is not a
string). -/
def isStrOpt (o : Option JVal) : Bool :=
  match o with
  | some v => v.isStr
  | none => false

/-- Is the selected `url || loc` value a string (the condition under which
the title-generation path cannot throw)? -/
def urlIsStr (o : Option JVal) : Bool :=
  match o with
  | some (JVal.str _) => true
  | _ => false

/-- The title-generation path of the `url_map` callback:
`url.split('/')...` throws a `TypeError` unless the selected url value is a
string; otherwise the item is rebuilt with `generatedTitle || url` as
title. -/
def urlMapRegen (url : Option JVal) : Except Unit (Option InternalLink) :=
  match url with
  | some (JVal.str u) =>
    let g := generatedTitle u
    .ok (some ⟨some (.str u), .str (if g ≠ "" then g else u)⟩)
  | _ => .error ()

/-- The `url_map` map callback: skip (`null` in the source, filtered out
afterwards) items that are falsy or have neither a string `url` nor a string
`loc`; keep a truthy string `title`; otherwise generate a title from the
selected url, which throws a `TypeError` when that selected value is not a
string. -/
def urlMapItem (item : JVal) : Except Unit (Option InternalLink) :=
  if !item.truthy then .ok none
  else if !isStrOpt (item.getField "url") && !isStrOpt (item.getField "loc") then
    .ok none
  else
    let url := jsOrOpt (item.getField "url") (item.getField "loc")
    match item.getField "title" with
    | some t =>
      if t.truthy && t.isStr then .ok (some ⟨url, t⟩)
      else urlMapRegen url
    | none => urlMapRegen url

/-- The `url_map` branch of `callWebhookTool`, applied to `data`: maps over
`data?.internal_links` when it is an array and filters out the skipped
items, otherwise returns `[]`. -/
def urlMapFromData (data : JVal) : Except Unit (List InternalLink) :=
  match data.getField "internal_links" with
  | some (JVal.arr xs) => (mapThrow urlMapItem xs).map (fun l => l.filterMap id)
  | _ => .ok []

/-- The four supported webhook functions. -/
inductive WebhookFunc where
  | url_map
  | url_scrape
  | page_ranked_keywords
  | suggested_keywords
deriving DecidableEq, Repr

/-- The value `callWebhookTool` resolves with: a typed record list for the
three normalizing functions, the raw parsed body for `url_scrape`, or the
`null` returned for an empty body. -/
inductive WebhookResult where
  | links (l : List InternalLink)
  | rankedKws (l : List RankedKeyword)
  | suggested (l : List JVal)
  | passthrough (v : JVal)
  | nullResult
deriving Repr

/-- Line 65 of `callWebhookTool`: when the parsed body is a non-empty array,
shape detection runs on its first element only. -/
def unwrapFirstElement : JVal → JVal
  | .arr (x :: _) => x
  | v => v

/-- `callWebhookTool` on a parsed (syntactically valid JSON) response body.
`url_scrape` falls through to `return responseData` (the raw parsed body,
not the unwrapped first element). -/
def callWebhookParsed (func : WebhookFunc) (responseData : JVal) :
    Except Unit WebhookResult :=
  let data := unwrapFirstElement responseData
  match func with
  | .url_map => (urlMapFromData data).map .links
  | .page_ranked_keywords => (rankedFromData data).map .rankedKws
  | .suggested_keywords => (suggestedFromData data).map .suggested
  | .url_scrape => .ok (.passthrough responseData)

/-- Lines 56–60 of `callWebhookTool`: an empty response body short-circuits
to an empty array for `url_map` and `page_ranked_keywords`, and to `null`
for the other functions. -/
def callWebhookEmptyBody (func : WebhookFunc) : WebhookResult :=
  match func with
  | .url_map => .links []
  | .page_ranked_keywords => .rankedKws []
  | _ => .nullResult

/-- An empty successful result: an empty record list or the `null` value
(never an error). -/
def WebhookResult.isEmptyResult : WebhookResult → Bool
  | .links l => l.isEmpty
  | .rankedKws l => l.isEmpty
  | .suggested l => l.isEmpty
  | .passthrough _ => false
  | .nullResult => true

/-- The element list the `page_ranked_keywords` branch maps over (empty when
the selected collection is not an array). -/
def rankedCollection (data : JVal) : List JVal :=
  match jsOr (data.getField "ranked_keywords")
    (if data.isArr then data else .arr []) with
  | .arr xs => xs
  | _ => []

/-- The element list the `suggested_keywords` branch maps over. -/
def suggestedCollection (data : JVal) : List JVal :=
  match (if data.truthy then data.getField "related_keyword" else none) with
  | some (JVal.arr xs) => xs
  | _ =>
    match jsOr (data.getField "suggested_keywords")
      (if data.isArr then data else .arr []) with
    | .arr xs => xs
    | _ => []

/-- The element list the `url_map` branch maps over. -/
def urlMapCollection (data : JVal) : List JVal :=
  match data.getField "internal_links" with
  | some (JVal.arr xs) => xs
  | _ => []

/-- A truthy string title that the callback keeps without regeneration. -/
def titleKept (o : Option JVal) : Bool :=
  match o with
  | some t => t.truthy && t.isStr
  | none => false

/-- A `url_map` item on which the map callback cannot throw: it is skipped,
or keeps a truthy string title, or its selected `url || loc` value is a
string. -/
def urlMapItemSafe (item : JVal) : Bool :=
  !item.truthy ||
  (!isStrOpt (item.getField "url") && !isStrOpt (item.getField "loc")) ||
  titleKept (item.getField "title") ||
  urlIsStr (jsOrOpt (item.getField "url") (item.getField "loc"))

/-! ## Keyword strategy (`generateKeywordStrategy`, steps 1–2) -/

/-- The fallback seed when parsing the seed-extraction model output fails:
`topic.split(' ').slice(0, 2).join(' ')`. -/
def fallbackSeed (topic : String) : String :=
  String.mk (joinWithSpace ((splitOnChar ' ' topic.toList).take 2))

/-- One per-seed webhook lookup with its `.catch(err => [])`: a failed call
is replaced by an empty suggestion list. -/
def seedLookup {E A : Type} (webhook : String → Except E (List A)) (s : String) :
    Except E (List A) :=
  match webhook s with
  | .ok v => .ok v
  | .error _ => .ok []

/-- `Promise.all`: the first failed promise rejects the combined promise. -/
def promiseAll {E A : Type} : List (Except E A) → Except E (List A)
  | [] => .ok []
  | t :: ts =>
    match t with
    | .error e => .error e
    | .ok a =>
      match promiseAll ts with
      | .error e => .error e
      | .ok l => .ok (a :: l)

/-- Steps 1–2 of `generateKeywordStrategy`: take the parsed seed list (or
the two-word fallback seed on parse failure), limit to 3 seeds, query the
webhook per seed with failures absorbed to `[]`, and flatten the results.
Returns the queried seeds and the combined suggestions. -/
def keywordStrategyStep {E A : Type} (topic : String) (parsed : Option (List String))
    (webhook : String → Except E (List A)) : Except E (List String × List A) :=
  let seeds := match parsed with
    | some s => s
    | none => [fallbackSeed topic]
  if seeds.length > 0 then
    let limitedSeeds := seeds.take 3
    match promiseAll (limitedSeeds.map (seedLookup webhook)) with
    | .ok results => .ok (limitedSeeds, results.flatten)
    | .error e => .error e
  else .ok ([], [])

/-! ## Theorems -/

/-- Claim C5 (code bug): the spec requires the classifier never to throw and
to classify unclassifiable input as Fatal, but the source reads
`error.status` on a `null`/`undefined` input and throws a `TypeError`; an
object with neither `status` nor `code` nor `message` is classified Fatal as
specified. -/
theorem isQuotaError_throws_on_null :
    isQuotaError .nullish = .error () ∧
    isQuotaError (.obj ⟨.absent, .absent, none⟩) = .ok false := by
  constructor
  · rfl
  · rfl

/-- Claim C2: numeric status 429/500/503 and symbolic status
RESOURCE_EXHAUSTED/PERMISSION_DENIED classify as Transient, as does any
message containing one of the fixed substrings; status 400/401/403 with no
quota-indicating message classifies as Fatal. -/
theorem isQuotaError_classification :
    (∀ (n : ℤ) (code : StatusVal) (msg : Option String),
      n = 429 ∨ n = 500 ∨ n = 503 →
      isQuotaError (.obj ⟨.num n, code, msg⟩) = .ok true) ∧
    (∀ (s : String) (code : StatusVal) (msg : Option String),
      s = "RESOURCE_EXHAUSTED" ∨ s = "PERMISSION_DENIED" →
      isQuotaError (.obj ⟨.str s, code, msg⟩) = .ok true) ∧
    (∀ (st code : StatusVal) (m : String),
      msgIndicates m = true →
      isQuotaError (.obj ⟨st, code, some m⟩) = .ok true) ∧
    (∀ (n : ℤ) (code : StatusVal) (msg : Option String),
      n = 400 ∨ n = 401 ∨ n = 403 →
      (∀ m, msg = some m → msgIndicates m = false) →
      isQuotaError (.obj ⟨.num n, code, msg⟩) = .ok false) := by
  refine ⟨?_, ?_, ?_, ?_⟩
  · rintro n code msg (rfl | rfl | rfl) <;> simp [isQuotaError, StatusVal.truthy]
  · rintro s code msg (rfl | rfl) <;> simp [isQuotaError, StatusVal.truthy]
  · intro st code m hm
    have hne : m ≠ "" := by
      intro h
      rw [h] at hm
      exact absurd hm (by decide)
    simp [isQuotaError, hm, hne]
  · rintro n code msg (rfl | rfl | rfl) hmsg <;>
      cases msg with
      | none => simp [isQuotaError, StatusVal.truthy]
      | some m =>
        have := hmsg m rfl
        simp [isQuotaError, StatusVal.truthy, this]

/-- Witness for `isQuotaError_classification`: a concrete 429 failure is
Transient and a concrete 400 failure with a plain message is Fatal. -/
theorem isQuotaError_classification_witness :
    isQuotaError (.obj ⟨.num 429, .absent, none⟩) = .ok true ∧
    isQuotaError (.obj ⟨.num 400, .absent, some "bad request"⟩) = .ok false := by
  constructor
  · exact isQuotaError_classification.1 429 .absent none (Or.inl rfl)
  · exact isQuotaError_classification.2.2.2 400 .absent (some "bad request")
      (Or.inl rfl) (by intro m hm; cases hm; decide)

/-- One-step unfolding of `withRetryRun`: immediate success. -/
theorem withRetryRun_ok {E A : Type} (fn : Nat → Except E A) (classify : E → Bool)
    (attempt retries delay : Nat) (a : A) (hfn : fn attempt = .ok a) :
    withRetryRun fn classify attempt retries delay = (.ok a, 1, []) := by
  rw [withRetryRun, hfn]

/-- One-step unfolding of `withRetryRun`: failure with no retries left. -/
theorem withRetryRun_err0 {E A : Type} (fn : Nat → Except E A) (classify : E → Bool)
    (attempt delay : Nat) (e : E) (hfn : fn attempt = .error e) :
    withRetryRun fn classify attempt 0 delay = (.error e, 1, []) := by
  rw [withRetryRun, hfn]

/-- One-step unfolding of `withRetryRun`: Transient failure with retries
left sleeps `delay` and recurses with the doubled delay. -/
theorem withRetryRun_errRetry {E A : Type} (fn : Nat → Except E A) (classify : E → Bool)
    (attempt r delay : Nat) (e : E) (hfn : fn attempt = .error e) (hc : classify e = true) :
    withRetryRun fn classify attempt (r + 1) delay =
      ((withRetryRun fn classify (attempt + 1) r (delay * 2)).1,
       (withRetryRun fn classify (attempt + 1) r (delay * 2)).2.1 + 1,
       delay :: (withRetryRun fn classify (attempt + 1) r (delay * 2)).2.2) := by
  rw [withRetryRun, hfn]
  simp [hc]

/-- One-step unfolding of `withRetryRun`: a Fatal-classified failure is
propagated unchanged with no retry. -/
theorem withRetryRun_errFatal {E A : Type} (fn : Nat → Except E A) (classify : E → Bool)
    (attempt r delay : Nat) (e : E) (hfn : fn attempt = .error e) (hc : classify e = false) :
    withRetryRun fn classify attempt (r + 1) delay = (.error e, 1, []) := by
  rw [withRetryRun, hfn]
  simp [hc]

/-- Claim C3: the delay slept before retry `n` (1-indexed) is
`baseDelay * 2 ^ (n - 1)` (the source's backoff factor is the literal `2`
passed as `baseDelay * 2`), and the always-transient run with
`retries = 3, baseDelay = 2000` sleeps exactly 2000, 4000, 8000 ms. -/
theorem withRetry_backoff_schedule :
    (∀ (E A : Type) (fn : Nat → Except E A) (classify : E → Bool)
       (attempt retries delay i d : Nat),
      ((withRetryRun fn classify attempt retries delay).2.2).get? i = some d →
      d = delay * 2 ^ i) ∧
    (∀ (E A : Type) (fn : Nat → Except E A) (classify : E → Bool),
      (∀ n, ∃ e, fn n = .error e ∧ classify e = true) →
      (withRetryRun fn classify 0 3 2000).2.2 = [2000, 4000, 8000]) := by
  constructor
  · intro E A fn classify attempt retries delay i d
    induction retries generalizing attempt delay i with
    | zero =>
      intro h
      cases hfn : fn attempt with
      | ok a => rw [withRetryRun_ok fn classify attempt 0 delay a hfn] at h; simp at h
      | error e => rw [withRetryRun_err0 fn classify attempt delay e hfn] at h; simp at h
    | succ r ih =>
      intro h
      cases hfn : fn attempt with
      | ok a => rw [withRetryRun_ok fn classify attempt (r + 1) delay a hfn] at h; simp at h
      | error e =>
        by_cases hc : classify e
        · rw [withRetryRun_errRetry fn classify attempt r delay e hfn hc] at h
          cases i with
          | zero =>
            simp at h
            simp [← h]
          | succ i' =>
            simp only [List.get?_cons_succ] at h
            rw [ih (attempt + 1) (delay * 2) i' h, pow_succ]
            ring
        · rw [withRetryRun_errFatal fn classify attempt r delay e hfn
            (Bool.not_eq_true _ ▸ hc)] at h
          simp at h
  · intro E A fn classify h
    obtain ⟨e0, hf0, hc0⟩ := h 0
    obtain ⟨e1, hf1, hc1⟩ := h 1
    obtain ⟨e2, hf2, hc2⟩ := h 2
    obtain ⟨e3, hf3, hc3⟩ := h 3
    rw [withRetryRun_errRetry fn classify 0 2 2000 e0 hf0 hc0,
        withRetryRun_errRetry fn classify 1 1 4000 e1 hf1 hc1,
        withRetryRun_errRetry fn classify 2 0 8000 e2 hf2 hc2,
        withRetryRun_err0 fn classify 3 16000 e3 hf3]

/-- Witness for `withRetry_backoff_schedule`: a task that always fails
transiently, retried 3 times from 2000 ms, sleeps 2000/4000/8000 ms. -/
theorem withRetry_backoff_schedule_witness :
    (withRetryRun (fun _ => (Except.error () : Except Unit Unit)) (fun _ => true)
      0 3 2000).2.2 = [2000, 4000, 8000] :=
  withRetry_backoff_schedule.2 Unit Unit _ _ (fun _ => ⟨(), rfl, rfl⟩)

/-- A task that always fails with a Transient-classified error exhausts its
whole retry budget: `retries + 1` invocations ending in a Transient-classified
failure. -/
theorem withRetryRun_allFail {E A : Type} (fn : Nat → Except E A) (classify : E → Bool)
    (h : ∀ n, ∃ e, fn n = .error e ∧ classify e = true) :
    ∀ retries attempt delay, ∃ e ds,
      withRetryRun fn classify attempt retries delay = (.error e, retries + 1, ds) ∧
      classify e = true := by
  intro retries
  induction retries with
  | zero =>
    intro attempt delay
    obtain ⟨e, hfn, hc⟩ := h attempt
    exact ⟨e, [], withRetryRun_err0 fn classify attempt delay e hfn, hc⟩
  | succ r ih =>
    intro attempt delay
    obtain ⟨e, hfn, hc⟩ := h attempt
    obtain ⟨e', ds', heq, hc'⟩ := ih (attempt + 1) (delay * 2)
    refine ⟨e', delay :: ds', ?_, hc'⟩
    rw [withRetryRun_errRetry fn classify attempt r delay e hfn hc, heq]

/-- Claim C1: when the primary task always fails Transient, the fallback
task runs bound to `FALLBACK_MODEL` under the deeper fallback policy — if it
succeeds on its first attempt it is invoked exactly once and its result is
returned; a Fatal primary failure propagates immediately with the fallback
never invoked; omitting the fallback re-runs the same closure; and an
always-failing fallback is invoked `3 + 1` times (the deeper budget). -/
theorem withModelFallback_routing (E A : Type) (p f : String → Nat → Except E A)
    (classify : E → Bool) (v : A)
    (h1 : ∀ i, ∃ err, p PRIMARY_MODEL i = .error err ∧ classify err = true)
    (h2 : f FALLBACK_MODEL 0 = .ok v) :
    withModelFallback p f classify = (.ok v, 2, 1) ∧
    (∀ (q : String → Nat → Except E A) (e' : E),
      q PRIMARY_MODEL 0 = .error e' → classify e' = false →
      withModelFallback q f classify = (.error e', 1, 0)) ∧
    withModelFallbackDefault p classify = withModelFallback p p classify ∧
    (∀ f' : String → Nat → Except E A,
      (∀ i, ∃ err, f' FALLBACK_MODEL i = .error err ∧ classify err = true) →
      (withModelFallback p f' classify).2.2 = 4) := by
  obtain ⟨e, ds, hp, hce⟩ := withRetryRun_allFail (p PRIMARY_MODEL) classify h1 1 0 1000
  have hf : withRetryRun (f FALLBACK_MODEL) classify 0 3 2000 = (.ok v, 1, []) :=
    withRetryRun_ok _ classify 0 3 2000 v h2
  refine ⟨?_, ?_, rfl, ?_⟩
  · simp [withModelFallback, hp, hce, hf]
  · intro q e' hq hcq
    have hpq : withRetryRun (q PRIMARY_MODEL) classify 0 1 1000 = (.error e', 1, []) :=
      withRetryRun_errFatal _ classify 0 0 1000 e' hq hcq
    simp [withModelFallback, hpq, hcq]
  · intro f' hf'
    obtain ⟨e2, ds2, hf2, _⟩ := withRetryRun_allFail (f' FALLBACK_MODEL) classify hf' 3 0 2000
    simp [withModelFallback, hp, hce, hf2]

/-- Witness for `withModelFallback_routing`: an always-Transient primary with
a first-attempt-succeeding fallback returns the fallback's result after one
fallback invocation. -/
theorem withModelFallback_routing_witness :
    withModelFallback (fun _ _ => (Except.error true : Except Bool Nat))
      (fun _ _ => Except.ok 7) (fun e => e) = (Except.ok 7, 2, 1) :=
  (withModelFallback_routing Bool Nat _ _ _ 7 (fun _ => ⟨true, rfl, rfl⟩) rfl).1

/-- Claim C9: when the parsed webhook body is a non-empty JSON array, the
`url_map`, `page_ranked_keywords` and `suggested_keywords` branches operate
on its first element only — any further elements are ignored, and the result
equals the branch normalizer applied to that first element directly. -/
theorem firstElement_unwrap :
    ∀ (x : JVal) (rest : List JVal),
      callWebhookParsed .url_map (.arr (x :: rest)) = (urlMapFromData x).map .links ∧
      callWebhookParsed .page_ranked_keywords (.arr (x :: rest)) =
        (rankedFromData x).map .rankedKws ∧
      callWebhookParsed .suggested_keywords (.arr (x :: rest)) =
        (suggestedFromData x).map .suggested :=
  fun _ _ => ⟨rfl, rfl, rfl⟩

/-- The fan-out of caught per-seed lookups never rejects. -/
theorem promiseAll_seedLookup_ok {E A : Type} (webhook : String → Except E (List A)) :
    ∀ l : List String, ∃ rs, promiseAll (l.map (seedLookup webhook)) = .ok rs := by
  intro l
  induction l with
  | nil => exact ⟨[], rfl⟩
  | cons s ss ih =>
    obtain ⟨rs, hrs⟩ := ih
    cases hw : webhook s with
    | ok v => exact ⟨v :: rs, by simp [promiseAll, seedLookup, hw, hrs]⟩
    | error e => exact ⟨[] :: rs, by simp [promiseAll, seedLookup, hw, hrs]⟩

/-- Claim C10: `generateKeywordStrategy`'s seed fan-out never fails (each
per-seed webhook failure is caught and replaced by `[]`), queries at most 3
seeds, uses the first two words of the topic as the sole seed when seed
parsing fails, and otherwise queries the first 3 parsed seeds. -/
theorem keywordStrategy_faultAbsorption :
    ∀ (E A : Type) (topic : String) (parsed : Option (List String))
      (webhook : String → Except E (List A)),
      ∃ q sug, keywordStrategyStep topic parsed webhook = .ok (q, sug) ∧
        q.length ≤ 3 ∧
        (parsed = none → q = [fallbackSeed topic]) ∧
        (∀ seeds, parsed = some seeds → q = seeds.take 3) := by
  intro E A topic parsed webhook
  cases parsed with
  | none =>
    obtain ⟨rs, hrs⟩ := promiseAll_seedLookup_ok webhook [fallbackSeed topic]
    simp only [List.map_cons, List.map_nil] at hrs
    refine ⟨[fallbackSeed topic], rs.flatten, ?_, ?_, ?_, ?_⟩
    · simp [keywordStrategyStep, hrs]
    · simp
    · intro _; rfl
    · intro seeds h; simp at h
  | some seeds =>
    cases seeds with
    | nil =>
      refine ⟨[], [], ?_, ?_, ?_, ?_⟩
      · simp [keywordStrategyStep]
      · simp
      · intro h; simp at h
      · intro seeds' h
        cases h
        rfl
    | cons s ss =>
      obtain ⟨rs, hrs⟩ := promiseAll_seedLookup_ok webhook ((s :: ss).take 3)
      refine ⟨(s :: ss).take 3, rs.flatten, ?_, ?_, ?_, ?_⟩
      · simp only [keywordStrategyStep, List.length_cons, gt_iff_lt,
          Nat.zero_lt_succ, if_true, hrs]
      · simp [List.length_take]
      · intro h; simp at h
      · intro seeds' h
        cases h
        rfl

/-- Witness for `keywordStrategy_faultAbsorption`: with an unparsable seed
response and a webhook that always fails, the strategy step still succeeds,
querying only the two-word fallback seed. -/
theorem keywordStrategy_faultAbsorption_witness :
    ∃ q sug,
      keywordStrategyStep "alpha beta gamma" none
        (fun _ => (Except.error () : Except Unit (List Nat))) = .ok (q, sug) ∧
      q.length ≤ 3 ∧
      ((none : Option (List String)) = none → q = [fallbackSeed "alpha beta gamma"]) ∧
      (∀ seeds, (none : Option (List String)) = some seeds → q = seeds.take 3) :=
  keywordStrategy_faultAbsorption Unit Nat "alpha beta gamma" none _

/-- On any non-null element the ranked-keyword map callback cannot throw and
produces exactly the `||`-defaulted record. -/
theorem normalizeRankedItem_ne_null (kw : JVal) (h : kw ≠ JVal.null) :
    normalizeRankedItem kw =
      .ok ⟨jsOr (kw.getField "Keyword") (jsOr (kw.getField "keyword") (.str "")),
           jsOr (kw.getField "competition_score") (.num 0),
           jsOr (kw.getField "competition_level") (.str "UNKNOWN"),
           jsOr (kw.getField "cpc") (.num 0),
           jsOr (kw.getField "search_volume") (.num 0),
           jsOr (kw.getField "keyword_difficulty") (.num 0),
           jsOr (kw.getField "intent") (.str "unknown")⟩ := by
  cases kw <;> first | exact absurd rfl h | rfl

/-- Mapping the ranked-keyword callback over a null-free list succeeds. -/
theorem mapThrow_ranked_ok :
    ∀ xs : List JVal, (∀ kw ∈ xs, kw ≠ JVal.null) →
      ∃ l, mapThrow normalizeRankedItem xs = .ok l := by
  intro xs
  induction xs with
  | nil => exact fun _ => ⟨[], rfl⟩
  | cons x ss ih =>
    intro h
    obtain ⟨l, hl⟩ := ih (fun kw hk => h kw (List.mem_cons_of_mem _ hk))
    simp only [mapThrow, normalizeRankedItem_ne_null x (h x (List.mem_cons_self x ss)), hl]
    exact ⟨_, rfl⟩

/-- The `page_ranked_keywords` branch succeeds on any `data` whose selected
collection is free of null elements. -/
theorem rankedFromData_ok (data : JVal)
    (h : ∀ kw ∈ rankedCollection data, kw ≠ JVal.null) :
    ∃ l, rankedFromData data = .ok l := by
  cases hk : jsOr (JVal.getField data "ranked_keywords")
      (if data.isArr then data else JVal.arr []) with
  | arr xs =>
    have hcol : rankedCollection data = xs := by simp only [rankedCollection, hk]
    obtain ⟨l, hl⟩ := mapThrow_ranked_ok xs (by rw [hcol] at h; exact h)
    exact ⟨l, by simp only [rankedFromData, hk, hl]⟩
  | null => exact ⟨[], by simp only [rankedFromData, hk]⟩
  | bool b => exact ⟨[], by simp only [rankedFromData, hk]⟩
  | num n => exact ⟨[], by simp only [rankedFromData, hk]⟩
  | str s => exact ⟨[], by simp only [rankedFromData, hk]⟩
  | obj fields => exact ⟨[], by simp only [rankedFromData, hk]⟩

/-- Claim C6 counterexample: a null element in the `ranked_keywords`
collection makes normalization throw (surfaced as an error), and an element
with a present-but-empty `Keyword` next to a non-empty `keyword` yields
`"abc"`, not the first *present* variant's value `""` — the source prefers
the first *truthy* variant. -/
theorem rankedNormalizer_counterexample :
    rankedFromData (JVal.obj [("ranked_keywords", JVal.arr [JVal.null])]) = .error () ∧
    normalizeRankedItem (JVal.obj [("Keyword", JVal.str ""), ("keyword", JVal.str "abc")]) =
      .ok ⟨.str "abc", .num 0, .str "UNKNOWN", .num 0, .num 0, .num 0, .str "unknown"⟩ ∧
    JVal.str "abc" ≠ JVal.str "" := by
  refine ⟨rfl, rfl, ?_⟩
  intro h
  injection h with h'
  exact absurd h' (by decide)

/-- Claim C6 (amended): the ranked-keyword normalization never throws on a
null-free collection; each missing scalar field is replaced by its default
(`0`, `"UNKNOWN"`, `"unknown"`, `""`); and the canonical `keyword` field
prefers the first *truthy* variant in the order `Keyword`, then `keyword`,
falling back to `""`. -/
theorem rankedNormalizer_amended :
    (∀ data : JVal, (∀ kw ∈ rankedCollection data, kw ≠ JVal.null) →
      ∃ l, rankedFromData data = .ok l) ∧
    (∀ kw : JVal, kw ≠ JVal.null →
      ∃ r, normalizeRankedItem kw = .ok r ∧
        (kw.getField "Keyword" = none → kw.getField "keyword" = none →
          r.keyword = .str "") ∧
        (kw.getField "competition_score" = none → r.competition = .num 0) ∧
        (kw.getField "competition_level" = none → r.competition_level = .str "UNKNOWN") ∧
        (kw.getField "cpc" = none → r.cpc = .num 0) ∧
        (kw.getField "search_volume" = none → r.search_volume = .num 0) ∧
        (kw.getField "keyword_difficulty" = none → r.difficulty = .num 0) ∧
        (kw.getField "intent" = none → r.intent = .str "unknown") ∧
        (∀ v, kw.getField "Keyword" = some v → v.truthy = true → r.keyword = v) ∧
        (∀ w, (∀ v, kw.getField "Keyword" = some v → v.truthy = false) →
          kw.getField "keyword" = some w → w.truthy = true → r.keyword = w)) := by
  refine ⟨rankedFromData_ok, ?_⟩
  intro kw hkw
  refine ⟨_, normalizeRankedItem_ne_null kw hkw, ?_, ?_, ?_, ?_, ?_, ?_, ?_, ?_, ?_⟩
  · intro h1 h2; simp [jsOr, h1, h2]
  · intro h; simp [jsOr, h]
  · intro h; simp [jsOr, h]
  · intro h; simp [jsOr, h]
  · intro h; simp [jsOr, h]
  · intro h; simp [jsOr, h]
  · intro h; simp [jsOr, h]
  · intro v hv htr; simp [jsOr, hv, htr]
  · intro w hK hw htr
    cases hKv : kw.getField "Keyword" with
    | none => simp [jsOr, hKv, hw, htr]
    | some v => simp [jsOr, hKv, hK v hKv, hw, htr]

/-- Witness for `rankedNormalizer_amended`: a concrete object record missing
every field normalizes to the all-defaults record. -/
theorem rankedNormalizer_amended_witness :
    ∃ r, normalizeRankedItem (JVal.obj []) = .ok r ∧ r.keyword = .str "" ∧
      r.cpc = .num 0 := by
  obtain ⟨r, hr, hkw, _, _, hcpc, _⟩ :=
    rankedNormalizer_amended.2 (JVal.obj []) (by intro h; cases h)
  exact ⟨r, hr, hkw rfl rfl, hcpc rfl⟩

/-- `filter(Boolean)` over defined values is a plain truthiness filter. -/
theorem filterBoolean_map_some :
    ∀ ws : List JVal, filterBoolean (ws.map some) = ws.filter JVal.truthy := by
  intro ws
  induction ws with
  | nil => rfl
  | cons w ws ih =>
    by_cases h : w.truthy <;> simp [filterBoolean, List.filter_cons, h] <;>
      simpa [filterBoolean] using ih

/-- On a collection whose every element has a non-truthy (or absent)
`Keyword` variant and a truthy `keyword` field, the `related_keyword` map
and the fallback `Keyword || keyword || kw` map produce matching values. -/
theorem relatedVsFallback :
    ∀ xs : List JVal,
      (∀ kw ∈ xs, (∀ v, kw.getField "Keyword" = some v → v.truthy = false) ∧
                  (∃ w, kw.getField "keyword" = some w ∧ w.truthy = true)) →
      ∃ ws : List JVal,
        mapThrow relatedKwCallback xs = .ok (ws.map some) ∧
        mapThrow suggestedKwCallback xs = .ok ws := by
  intro xs
  induction xs with
  | nil => exact fun _ => ⟨[], rfl, rfl⟩
  | cons x ss ih =>
    intro h
    obtain ⟨hK, w, hw, htw⟩ := h x (List.mem_cons_self x ss)
    have hne : x ≠ JVal.null := by
      intro hx
      rw [hx] at hw
      simp [JVal.getField] at hw
    have hr : relatedKwCallback x = .ok (x.getField "keyword") := by
      cases x <;> first | exact absurd rfl hne | rfl
    have hs : suggestedKwCallback x =
        .ok (jsOr (x.getField "Keyword") (jsOr (x.getField "keyword") x)) := by
      cases x <;> first | exact absurd rfl hne | rfl
    have hval : jsOr (x.getField "Keyword") (jsOr (x.getField "keyword") x) = w := by
      cases hKv : x.getField "Keyword" with
      | none => simp [jsOr, hw, htw]
      | some v => simp [jsOr, hKv, hK v hKv, hw, htw]
    obtain ⟨ws, h1, h2⟩ := ih (fun kw hk => h kw (List.mem_cons_of_mem _ hk))
    exact ⟨w :: ws, by simp [mapThrow, hr, hw, h1],
      by simp [mapThrow, hs, hval, h2]⟩

/-- Claim C7 counterexample: wrapping a collection under `related_keyword`
does not round-trip — a bare-string element survives direct normalization
but is dropped by the `related_keyword` mapping. -/
theorem wrapperRoundTrip_counterexample :
    suggestedFromData (JVal.obj [("related_keyword", JVal.arr [JVal.str "x"])]) = .ok [] ∧
    suggestedFromData (JVal.arr [JVal.str "x"]) = .ok [JVal.str "x"] ∧
    (Except.ok ([] : List JVal) : Except Unit (List JVal)) ≠ .ok [JVal.str "x"] := by
  refine ⟨rfl, rfl, ?_⟩
  intro h
  injection h with h'
  exact List.noConfusion h'

/-- Claim C7 (amended): the `ranked_keywords` and `suggested_keywords`
wrappers round-trip for every array collection; the `related_keyword`
wrapper maps only each element's `keyword` field and round-trips exactly
when every element has a non-truthy (or absent) `Keyword` variant and a
truthy `keyword` field. -/
theorem wrapperRoundTrip_amended :
    (∀ xs : List JVal,
      rankedFromData (JVal.obj [("ranked_keywords", JVal.arr xs)]) =
        rankedFromData (JVal.arr xs)) ∧
    (∀ xs : List JVal,
      suggestedFromData (JVal.obj [("suggested_keywords", JVal.arr xs)]) =
        suggestedFromData (JVal.arr xs)) ∧
    (∀ xs : List JVal,
      (∀ kw ∈ xs, (∀ v, kw.getField "Keyword" = some v → v.truthy = false) ∧
                  (∃ w, kw.getField "keyword" = some w ∧ w.truthy = true)) →
      suggestedFromData (JVal.obj [("related_keyword", JVal.arr xs)]) =
        suggestedFromData (JVal.arr xs)) := by
  refine ⟨?_, ?_, ?_⟩
  · intro xs
    simp [rankedFromData, JVal.getField, jsOr, JVal.truthy, JVal.isArr, List.find?]
  · intro xs
    simp [suggestedFromData, JVal.getField, jsOr, JVal.truthy, JVal.isArr, List.find?]
  · intro xs h
    obtain ⟨ws, h1, h2⟩ := relatedVsFallback xs h
    have hL : suggestedFromData (JVal.obj [("related_keyword", JVal.arr xs)]) =
        (mapThrow relatedKwCallback xs).map filterBoolean := by
      simp [suggestedFromData, JVal.getField, jsOr, JVal.truthy, JVal.isArr, List.find?]
    have hR : suggestedFromData (JVal.arr xs) =
        (mapThrow suggestedKwCallback xs).map (fun l => l.filter JVal.truthy) := by
      simp [suggestedFromData, JVal.getField, jsOr, JVal.truthy, JVal.isArr, List.find?]
    rw [hL, hR, h1, h2]
    exact congrArg Except.ok (filterBoolean_map_some ws)

/-- Witness for `wrapperRoundTrip_amended`: a concrete one-element collection
wrapped under `related_keyword` normalizes to the same list as the unwrapped
collection. -/
theorem wrapperRoundTrip_amended_witness :
    suggestedFromData
        (JVal.obj [("related_keyword", JVal.arr [JVal.obj [("keyword", JVal.str "a")]])]) =
      suggestedFromData (JVal.arr [JVal.obj [("keyword", JVal.str "a")]]) := by
  apply wrapperRoundTrip_amended.2.2
  intro kw hk
  simp only [List.mem_singleton] at hk
  subst hk
  refine ⟨fun v hv => ?_, ⟨JVal.str "a", rfl, rfl⟩⟩
  simp [JVal.getField] at hv

/-- A callback that only throws on `null` succeeds on a null-free list. -/
theorem mapThrow_ok_of_ne_null {B : Type} (f : JVal → Except Unit B)
    (hf : ∀ x, x ≠ JVal.null → ∃ y, f x = .ok y) :
    ∀ xs : List JVal, (∀ kw ∈ xs, kw ≠ JVal.null) → ∃ l, mapThrow f xs = .ok l := by
  intro xs
  induction xs with
  | nil => exact fun _ => ⟨[], rfl⟩
  | cons x ss ih =>
    intro h
    obtain ⟨y, hy⟩ := hf x (h x (List.mem_cons_self x ss))
    obtain ⟨l, hl⟩ := ih (fun kw hk => h kw (List.mem_cons_of_mem _ hk))
    simp only [mapThrow, hy, hl]
    exact ⟨_, rfl⟩

/-- The title-generation path succeeds exactly on string url values. -/
theorem urlMapRegen_ok (url : Option JVal) (h : urlIsStr url = true) :
    ∃ r, urlMapRegen url = .ok r := by
  cases url with
  | none => simp [urlIsStr] at h
  | some v =>
    cases v with
    | str s => exact ⟨_, rfl⟩
    | null => simp [urlIsStr] at h
    | bool b => simp [urlIsStr] at h
    | num n => simp [urlIsStr] at h
    | arr xs => simp [urlIsStr] at h
    | obj fl => simp [urlIsStr] at h

/-- A safe `url_map` item never makes the callback throw. -/
theorem urlMapItem_safe_ok (item : JVal) (hs : urlMapItemSafe item = true) :
    ∃ r, urlMapItem item = .ok r := by
  unfold urlMapItemSafe at hs
  unfold urlMapItem
  by_cases ht : item.truthy = true
  · simp only [ht, Bool.not_true, Bool.false_or] at hs
    simp only [ht, Bool.not_true, Bool.false_eq_true, if_false]
    by_cases hskip :
        (!isStrOpt (item.getField "url") && !isStrOpt (item.getField "loc")) = true
    · simp [hskip]
    · simp only [Bool.not_eq_true] at hskip
      simp only [hskip, Bool.false_or] at hs
      simp only [hskip, Bool.false_eq_true, if_false]
      cases hti : item.getField "title" with
      | some t =>
        simp only [hti, titleKept] at hs
        by_cases htt : (t.truthy && t.isStr) = true
        · refine ⟨some ⟨jsOrOpt (item.getField "url") (item.getField "loc"), t⟩, ?_⟩
          simp [htt]
        · simp only [Bool.not_eq_true] at htt
          simp only [htt, Bool.false_or] at hs
          obtain ⟨r, hr⟩ := urlMapRegen_ok _ hs
          exact ⟨r, by simp [htt, hr]⟩
      | none =>
        simp only [hti, titleKept, Bool.false_or] at hs
        obtain ⟨r, hr⟩ := urlMapRegen_ok _ hs
        exact ⟨r, by simp [hr]⟩
  · simp only [Bool.not_eq_true] at ht
    simp [ht]

/-- Mapping safe `url_map` items succeeds. -/
theorem mapThrow_urlMap_ok :
    ∀ xs : List JVal, (∀ item ∈ xs, urlMapItemSafe item = true) →
      ∃ l, mapThrow urlMapItem xs = .ok l := by
  intro xs
  induction xs with
  | nil => exact fun _ => ⟨[], rfl⟩
  | cons x ss ih =>
    intro h
    obtain ⟨y, hy⟩ := urlMapItem_safe_ok x (h x (List.mem_cons_self x ss))
    obtain ⟨l, hl⟩ := ih (fun kw hk => h kw (List.mem_cons_of_mem _ hk))
    simp only [mapThrow, hy, hl]
    exact ⟨_, rfl⟩

/-- The `url_map` branch succeeds when every collection item is safe. -/
theorem urlMapFromData_ok (data : JVal)
    (h : ∀ item ∈ urlMapCollection data, urlMapItemSafe item = true) :
    ∃ l, urlMapFromData data = .ok l := by
  cases hk : JVal.getField data "internal_links" with
  | none => exact ⟨[], by simp only [urlMapFromData, hk]⟩
  | some v =>
    cases v with
    | arr xs =>
      have hcol : urlMapCollection data = xs := by simp only [urlMapCollection, hk]
      obtain ⟨l, hl⟩ := mapThrow_urlMap_ok xs (by rw [hcol] at h; exact h)
      exact ⟨l.filterMap id, by simp only [urlMapFromData, hk, hl]; rfl⟩
    | null => exact ⟨[], by simp only [urlMapFromData, hk]⟩
    | bool b => exact ⟨[], by simp only [urlMapFromData, hk]⟩
    | num n => exact ⟨[], by simp only [urlMapFromData, hk]⟩
    | str s => exact ⟨[], by simp only [urlMapFromData, hk]⟩
    | obj fl => exact ⟨[], by simp only [urlMapFromData, hk]⟩

/-- The `related_keyword` callback only throws on `null`. -/
theorem relatedKwCallback_ne_null (x : JVal) (hx : x ≠ JVal.null) :
    ∃ y, relatedKwCallback x = .ok y := by
  cases x <;> first | exact absurd rfl hx | exact ⟨_, rfl⟩

/-- The `suggested_keywords` fallback callback only throws on `null`. -/
theorem suggestedKwCallback_ne_null (x : JVal) (hx : x ≠ JVal.null) :
    ∃ y, suggestedKwCallback x = .ok y := by
  cases x <;> first | exact absurd rfl hx | exact ⟨_, rfl⟩

/-- The `suggested_keywords` branch succeeds on any `data` whose selected
collection is free of null elements. -/
theorem suggestedFromData_ok (data : JVal)
    (h : ∀ kw ∈ suggestedCollection data, kw ≠ JVal.null) :
    ∃ l, suggestedFromData data = .ok l := by
  cases hrel : (if data.truthy then data.getField "related_keyword" else none) with
  | some v =>
    cases v with
    | arr xs =>
      simp only [suggestedFromData, suggestedCollection, hrel] at h ⊢
      obtain ⟨l, hl⟩ := mapThrow_ok_of_ne_null relatedKwCallback relatedKwCallback_ne_null xs h
      exact ⟨filterBoolean l, by rw [hl]; rfl⟩
    | null =>
      simp only [suggestedFromData, suggestedCollection, hrel] at h ⊢
      cases hkw : jsOr (JVal.getField data "suggested_keywords")
          (if data.isArr then data else JVal.arr []) with
      | arr ys =>
        simp only [hkw] at h ⊢
        obtain ⟨l, hl⟩ :=
          mapThrow_ok_of_ne_null suggestedKwCallback suggestedKwCallback_ne_null ys h
        exact ⟨l.filter JVal.truthy, by rw [hl]; rfl⟩
      | null => exact ⟨[], by simp only [hkw]⟩
      | bool b => exact ⟨[], by simp only [hkw]⟩
      | num n => exact ⟨[], by simp only [hkw]⟩
      | str s => exact ⟨[], by simp only [hkw]⟩
      | obj fl => exact ⟨[], by simp only [hkw]⟩
    | bool b0 =>
      simp only [suggestedFromData, suggestedCollection, hrel] at h ⊢
      cases hkw : jsOr (JVal.getField data "suggested_keywords")
          (if data.isArr then data else JVal.arr []) with
      | arr ys =>
        simp only [hkw] at h ⊢
        obtain ⟨l, hl⟩ :=
          mapThrow_ok_of_ne_null suggestedKwCallback suggestedKwCallback_ne_null ys h
        exact ⟨l.filter JVal.truthy, by rw [hl]; rfl⟩
      | null => exact ⟨[], by simp only [hkw]⟩
      | bool b => exact ⟨[], by simp only [hkw]⟩
      | num n => exact ⟨[], by simp only [hkw]⟩
      | str s => exact ⟨[], by simp only [hkw]⟩
      | obj fl => exact ⟨[], by simp only [hkw]⟩
    | num n0 =>
      simp only [suggestedFromData, suggestedCollection, hrel] at h ⊢
      cases hkw : jsOr (JVal.getField data "suggested_keywords")
          (if data.isArr then data else JVal.arr []) with
      | arr ys =>
        simp only [hkw] at h ⊢
        obtain ⟨l, hl⟩ :=
          mapThrow_ok_of_ne_null suggestedKwCallback suggestedKwCallback_ne_null ys h
        exact ⟨l.filter JVal.truthy, by rw [hl]; rfl⟩
      | null => exact ⟨[], by simp only [hkw]⟩
      | bool b => exact ⟨[], by simp only [hkw]⟩
      | num n => exact ⟨[], by simp only [hkw]⟩
      | str s => exact ⟨[], by simp only [hkw]⟩
      | obj fl => exact ⟨[], by simp only [hkw]⟩
    | str s0 =>
      simp only [suggestedFromData, suggestedCollection, hrel] at h ⊢
      cases hkw : jsOr (JVal.getField data "suggested_keywords")
          (if data.isArr then data else JVal.arr []) with
      | arr ys =>
        simp only [hkw] at h ⊢
        obtain ⟨l, hl⟩ :=
          mapThrow_ok_of_ne_null suggestedKwCallback suggestedKwCallback_ne_null ys h
        exact ⟨l.filter JVal.truthy, by rw [hl]; rfl⟩
      | null => exact ⟨[], by simp only [hkw]⟩
      | bool b => exact ⟨[], by simp only [hkw]⟩
      | num n => exact ⟨[], by simp only [hkw]⟩
      | str s => exact ⟨[], by simp only [hkw]⟩
      | obj fl => exact ⟨[], by simp only [hkw]⟩
    | obj fl0 =>
      simp only [suggestedFromData, suggestedCollection, hrel] at h ⊢
      cases hkw : jsOr (JVal.getField data "suggested_keywords")
          (if data.isArr then data else JVal.arr []) with
      | arr ys =>
        simp only [hkw] at h ⊢
        obtain ⟨l, hl⟩ :=
          mapThrow_ok_of_ne_null suggestedKwCallback suggestedKwCallback_ne_null ys h
        exact ⟨l.filter JVal.truthy, by rw [hl]; rfl⟩
      | null => exact ⟨[], by simp only [hkw]⟩
      | bool b => exact ⟨[], by simp only [hkw]⟩
      | num n => exact ⟨[], by simp only [hkw]⟩
      | str s => exact ⟨[], by simp only [hkw]⟩
      | obj fl => exact ⟨[], by simp only [hkw]⟩
  | none =>
    simp only [suggestedFromData, suggestedCollection, hrel] at h ⊢
    cases hkw : jsOr (JVal.getField data "suggested_keywords")
        (if data.isArr then data else JVal.arr []) with
    | arr ys =>
      simp only [hkw] at h ⊢
      obtain ⟨l, hl⟩ :=
        mapThrow_ok_of_ne_null suggestedKwCallback suggestedKwCallback_ne_null ys h
      exact ⟨l.filter JVal.truthy, by rw [hl]; rfl⟩
    | null => exact ⟨[], by simp only [hkw]⟩
    | bool b => exact ⟨[], by simp only [hkw]⟩
    | num n => exact ⟨[], by simp only [hkw]⟩
    | str s => exact ⟨[], by simp only [hkw]⟩
    | obj fl => exact ⟨[], by simp only [hkw]⟩

/-- Claim C8 counterexample: a syntactically valid JSON response whose
`related_keyword` collection holds a null element makes the
`suggested_keywords` normalization throw instead of returning an array. -/
theorem arrayGuarantee_counterexample :
    callWebhookParsed .suggested_keywords
      (JVal.obj [("related_keyword", JVal.arr [JVal.null])]) = .error () := rfl

/-- Claim C8 (amended): an empty response body yields an empty successful
result (an empty list, or `null` for the non-collection functions) for every
supported function; and for every parsed JSON response the record-producing
functions return an array provided the selected collection holds no null
element (`page_ranked_keywords`, `suggested_keywords`) respectively only
safe items (`url_map`) — a violating element raises a `TypeError` that
surfaces as an error. -/
theorem arrayGuarantee_amended :
    (∀ func, (callWebhookEmptyBody func).isEmptyResult = true) ∧
    (∀ resp : JVal, (∀ kw ∈ rankedCollection (unwrapFirstElement resp), kw ≠ JVal.null) →
      ∃ l, callWebhookParsed .page_ranked_keywords resp = .ok (.rankedKws l)) ∧
    (∀ resp : JVal, (∀ kw ∈ suggestedCollection (unwrapFirstElement resp), kw ≠ JVal.null) →
      ∃ l, callWebhookParsed .suggested_keywords resp = .ok (.suggested l)) ∧
    (∀ resp : JVal, (∀ item ∈ urlMapCollection (unwrapFirstElement resp),
        urlMapItemSafe item = true) →
      ∃ l, callWebhookParsed .url_map resp = .ok (.links l)) := by
  refine ⟨?_, ?_, ?_, ?_⟩
  · intro func
    cases func <;> rfl
  · intro resp h
    obtain ⟨l, hl⟩ := rankedFromData_ok (unwrapFirstElement resp) h
    exact ⟨l, by simp only [callWebhookParsed, hl]; rfl⟩
  · intro resp h
    obtain ⟨l, hl⟩ := suggestedFromData_ok (unwrapFirstElement resp) h
    exact ⟨l, by simp only [callWebhookParsed, hl]; rfl⟩
  · intro resp h
    obtain ⟨l, hl⟩ := urlMapFromData_ok (unwrapFirstElement resp) h
    exact ⟨l, by simp only [callWebhookParsed, hl]; rfl⟩

/-- Witness for `arrayGuarantee_amended`: a concrete null-free
`ranked_keywords` response normalizes to an array. -/
theorem arrayGuarantee_amended_witness :
    ∃ l, callWebhookParsed .page_ranked_keywords
      (JVal.obj [("ranked_keywords", JVal.arr [JVal.obj []])]) = .ok (.rankedKws l) := by
  apply arrayGuarantee_amended.2.1
  intro kw hk
  have hcol : rankedCollection (unwrapFirstElement
      (JVal.obj [("ranked_keywords", JVal.arr [JVal.obj []])])) = [JVal.obj []] := rfl
  rw [hcol] at hk
  simp only [List.mem_singleton] at hk
  subst hk
  intro hx
  cases hx

/-- The fence pattern cannot match at a position that does not start with a
backtick. -/
theorem tryMatchHere_not_tick {c : Char} {r : List Char} (hc : c ≠ '`') :
    tryMatchHere (c :: r) = none := by
  unfold tryMatchHere
  split
  · rename_i heq
    injection heq with h1 h2
    exact absurd h1 hc
  · rfl

/-- A text with no backtick at all has no fence match. -/
theorem fenceMatch_none {s : List Char} (h : '`' ∉ s) : fenceMatch s = none := by
  induction s with
  | nil => rfl
  | cons c r ih =>
    have hc : c ≠ '`' := fun hc => h (hc ▸ List.mem_cons_self c r)
    have hr : '`' ∉ r := fun hm => h (List.mem_cons_of_mem c hm)
    simp only [fenceMatch, tryMatchHere_not_tick hc, ih hr]

/-- Claim C4 counterexample: a fenced block with a non-`json` language tag
(`js`) does not return the block's interior — the tag text is included in
the extractor's output, because the regular expression only strips a
literal `json` tag. -/
theorem extractJson_counterexample :
    extractJson ("```js\n[1,2,3]\n```".toList) = "js\n[1,2,3]".toList ∧
    "js\n[1,2,3]".toList ≠ "[1,2,3]".toList := by
  constructor
  · decide
  · decide

/-- Claim C4 (amended): `extractJson` never throws and follows the
three-step priority algorithm, where step (1) strips only a literal `json`
language tag (any other tag remains part of the returned interior): the
`json`-tagged fence example and the brace example evaluate as specified, and
on any text containing no backtick the result is exactly the bracket
fallback — the inclusive JS-substring from the first `{`/`[` to the last
occurrence of the corresponding closing character when one exists, and the
trimmed whole text otherwise. -/
theorem extractJson_amended :
    extractJson ("Here:\n```json\n[1,2,3]\n```\n".toList) = "[1,2,3]".toList ∧
    extractJson ("prefix \x7b\"a\":1\x7d suffix".toList) = "\x7b\"a\":1\x7d".toList ∧
    (∀ s : List Char, '`' ∉ s → extractJson s = bracketFallback s) := by
  refine ⟨by decide, by decide, ?_⟩
  intro s h
  simp only [extractJson, fenceMatch_none h]

/-- Witness for `extractJson_amended`: on a concrete backtick-free text the
extractor returns the bracket fallback. -/
theorem extractJson_amended_witness :
    extractJson ("no brackets here".toList) = bracketFallback ("no brackets here".toList) :=
  extractJson_amended.2.2 ("no brackets here".toList) (by decide)
